import Mathlib

/- Verification of the library-mode discovery-and-assembly pipeline of
uniffi-rs (`uniffi_bindgen/src/library_mode.rs`).

Strings are modelled as `List Char`.  `Utf8Path` (from the external `camino`
crate) is modelled abstractly by the one accessor the code uses: an optional
UTF-8 filename.  The orchestrator is modelled as explicit state passing that
records an event trace of every call to an external collaborator. -/

/-- Rust `str::strip_prefix`: drop `p` from the front of `s`, or `none` if
`s` does not start with `p`. -/
def dropPre : List Char → List Char → Option (List Char)
  | [], s => some s
  | _ :: _, [] => none
  | p :: ps, c :: cs => if p = c then dropPre ps cs else none

/-- Rust `str::strip_suffix`: drop `p` from the end of `s`, or `none` if
`s` does not end with `p`. -/
def dropSuf (p s : List Char) : Option (List Char) :=
  (dropPre p.reverse s.reverse).map List.reverse

/-- A `camino::Utf8Path`, abstracted to the only accessor `library_mode.rs`
uses: `file_name()`, which yields the final path component when there is
one. -/
structure Utf8Path where
  fileName : Option (List Char)
deriving DecidableEq

/-- The characters of the `"lib"` literal stripped by `calc_cdylib_name`. -/
def libChars : List Char := ['l', 'i', 'b']

/-- The extension list `[".so", ".dll", ".dylib"]` from `calc_cdylib_name`
(the source spells the variable `cdylib_extentions`). -/
def cdylib_extentions : List (List Char) :=
  [['.', 's', 'o'], ['.', 'd', 'l', 'l'], ['.', 'd', 'y', 'l', 'i', 'b']]

/-- The `for ext in cdylib_extentions { if let Some(f) = filename.strip_suffix(ext) { return Some(f) } }`
loop: first successful suffix strip wins. -/
def findStrip : List (List Char) → List Char → Option (List Char)
  | [], _ => none
  | e :: es, f =>
    match dropSuf e f with
    | some r => some r
    | none => findStrip es f

/-- `calc_cdylib_name` from `library_mode.rs`: take the filename, strip a
leading `"lib"` if present (`strip_prefix("lib").unwrap_or(filename)`), then
return the first suffix-stripped result over the extension list. -/
def calc_cdylib_name (library_path : Utf8Path) : Option (List Char) :=
  match library_path.fileName with
  | none => none
  | some filename =>
    let filename := (dropPre libChars filename).getD filename
    findStrip cdylib_extentions filename

/-- Strip a leading `"lib"` if present — the specification's description of
the name returned for a `[lib]<name>.<ext>` filename. -/
def stripLib (s : List Char) : List Char :=
  (dropPre libChars s).getD s

/-- Modelled from the spec: a `RawMetadataItem` (`uniffi_meta::Metadata`,
not under src/) — one atomic declared construct, "tagged with the
namespace/component it belongs to and a declaration-specific payload"
(§3).  The payload is abstract. -/
structure MetadataItem where
  crate_name : String
  payload : Nat
deriving DecidableEq

/-- Modelled from the spec: a `Namespace` (§3) — "identifies one component,
at minimum a component (crate) name". -/
structure NamespaceMeta where
  crate_name : String
deriving DecidableEq

/-- Modelled from the spec: a `MetadataGroup` (`uniffi_meta`, not under
src/) — "the namespace plus the ordered collection of all RawMetadataItems
attributed to it" (§3). -/
structure MetadataGroup where
  ns : NamespaceMeta
  items : List MetadataItem
deriving DecidableEq

/-- A `ComponentInterface` as far as this pipeline observes it: the crate
name passed to `ComponentInterface::new` plus the metadata folded into it by
the external builder (§4.4: the true cost lives in the external builder). -/
structure ComponentInterface where
  crate_name : String
  items : List MetadataItem
deriving DecidableEq

/-- `ComponentInterface::new(&crate_name)`: an empty interface for the
crate. -/
def ComponentInterface.new (crate_name : String) : ComponentInterface :=
  ⟨crate_name, []⟩

/-- The `Source` struct of `library_mode.rs`: crate name, built interface,
resolved configuration. -/
structure Source (Config : Type) where
  crate_name : String
  ci : ComponentInterface
  config : Config
deriving DecidableEq

/-- The error kinds of §7, one constructor per kind named there. -/
inductive Err where
  | unsupported
  | ioFailure
  | metadataFormat
  | inconsistentNamespace
  | interfaceError
  | configParse
  | generation
deriving DecidableEq

/-- One call to an external collaborator, recorded in the order the
orchestrator performs it. -/
inductive Event where
  | CheckLibraryPath (path : Utf8Path) (name : Option (List Char))
  | ExtractFromLibrary (path : Utf8Path)
  | AddMetadata (crate_name : String)
  | LoadConfig (root : Utf8Path) (explicitPath : Option Utf8Path)
  | CreateDirAll (dir : Utf8Path)
  | WriteBindings (crate_name : String) (dir : Utf8Path)
deriving DecidableEq

def Event.isCheck : Event → Bool
  | .CheckLibraryPath _ _ => true
  | _ => false

def Event.isWrite : Event → Bool
  | .WriteBindings _ _ => true
  | _ => false

def Event.isCreateDir : Event → Bool
  | .CreateDirAll _ => true
  | _ => false

/-- The external collaborators `library_mode.rs` calls, one field per
capability: the binding generator (`check_library_path`, `write_bindings`),
the introspector (`macro_metadata::extract_from_library`), the second
grouping pass's outcome (`uniffi_meta::group_metadata`, which can fail with
`InconsistentNamespaceError`; its attribution work is modelled as already
done by `create_metadata_groups` since every item here carries its
namespace), the configuration loader (`load_initial_config`) and the two
`BindingsConfig` update operations.  Mutation of `&mut self` receivers is
modelled as explicit state passing. -/
structure Env (Config : Type) where
  check_library_path : Utf8Path → Option (List Char) → Except Err Unit
  extract_from_library : Utf8Path → Except Err (List MetadataItem)
  group_metadata_err : List MetadataItem → Option Err
  add_metadata : ComponentInterface → MetadataGroup → Except Err ComponentInterface
  load_initial_config : Utf8Path → Option Utf8Path → Except Err Config
  update_from_cdylib_name : Config → List Char → Config
  update_from_ci : Config → ComponentInterface → Config
  create_dir_all : Utf8Path → Except Err Unit
  write_bindings : ComponentInterface → Config → Utf8Path → Except Err Unit

/-- Modelled from the spec: one step of `uniffi_meta::create_metadata_groups`
(not under src/) — a group is "created on first sighting of a namespace,
appended to on every subsequent sighting" (§3), keyed by the component
name. -/
def addItem (gs : List (String × MetadataGroup)) (i : MetadataItem) :
    List (String × MetadataGroup) :=
  if i.crate_name ∈ gs.map Prod.fst then
    gs.map (fun p =>
      if p.1 = i.crate_name then (p.1, MetadataGroup.mk p.2.ns (p.2.items ++ [i]))
      else p)
  else gs ++ [(i.crate_name, ⟨⟨i.crate_name⟩, [i]⟩)]

/-- Modelled from the spec: `uniffi_meta::create_metadata_groups` (not under
src/) — "partitions items by namespace into a mapping from namespace →
MetadataGroup, preserving first-seen order of namespaces; never reorders
items within a group" (§4.3). -/
def create_metadata_groups (items : List MetadataItem) :
    List (String × MetadataGroup) :=
  items.foldl addItem []

/-- The `if let Some(cdylib_name) = cdylib_name { config.update_from_cdylib_name(cdylib_name) }`
step of `find_sources`: apply `update_from_cdylib_name` only when a cdylib
name was inferred from the library path. -/
def applyCdylibUpdate {Config : Type} (env : Env Config)
    (cdylib_name : Option (List Char)) (config : Config) : Config :=
  match cdylib_name with
  | some n => env.update_from_cdylib_name config n
  | none => config

/-- Per-group body of the closure in `find_sources`: build the interface
(`ComponentInterface::new` + `add_metadata`), load the initial config with
the shared `crate_root` and no explicit path, then apply
`update_from_cdylib_name` (only when a cdylib name was inferred) and
`update_from_ci`.  Returns the recorded collaborator calls and the
`Result`. -/
def processGroup {Config : Type} (env : Env Config) (crate_root : Utf8Path)
    (cdylib_name : Option (List Char)) (group : MetadataGroup) :
    List Event × Except Err (Source Config) :=
  let crate_name := group.ns.crate_name
  match env.add_metadata (ComponentInterface.new crate_name) group with
  | .error e => ([.AddMetadata crate_name], .error e)
  | .ok ci =>
    match env.load_initial_config crate_root none with
    | .error e => ([.AddMetadata crate_name, .LoadConfig crate_root none], .error e)
    | .ok config =>
      let config := applyCdylibUpdate env cdylib_name config
      let config := env.update_from_ci config ci
      ([.AddMetadata crate_name, .LoadConfig crate_root none],
        .ok ⟨crate_name, ci, config⟩)

/-- The `.map(...).collect::<Result<Vec<_>>>()` over the groups: process in
order, short-circuiting at the first error (later closures never run). -/
def processGroups {Config : Type} (env : Env Config) (crate_root : Utf8Path)
    (cdylib_name : Option (List Char)) :
    List MetadataGroup → List Event × Except Err (List (Source Config))
  | [] => ([], .ok [])
  | g :: gs =>
    match processGroup env crate_root cdylib_name g with
    | (t, .error e) => (t, .error e)
    | (t, .ok s) =>
      match processGroups env crate_root cdylib_name gs with
      | (t2, .error e) => (t ++ t2, .error e)
      | (t2, .ok ss) => (t ++ t2, .ok (s :: ss))

/-- `find_sources` from `library_mode.rs`: introspect the artifact, group
the metadata (first error propagates), then map every group's value to a
`Source`. -/
def find_sources {Config : Type} (env : Env Config) (crate_root : Utf8Path)
    (library_path : Utf8Path) (cdylib_name : Option (List Char)) :
    List Event × Except Err (List (Source Config)) :=
  match env.extract_from_library library_path with
  | .error e => ([.ExtractFromLibrary library_path], .error e)
  | .ok items =>
    let metadata_groups := create_metadata_groups items
    match env.group_metadata_err items with
    | some e => ([.ExtractFromLibrary library_path], .error e)
    | none =>
      match processGroups env crate_root cdylib_name (metadata_groups.map Prod.snd) with
      | (t, r) => (.ExtractFromLibrary library_path :: t, r)

/-- The `for source in sources.iter()` loop of `generate_external_bindings`:
write each source's bindings in order, stopping at the first error. -/
def writeAll {Config : Type} (env : Env Config) (out_dir : Utf8Path) :
    List (Source Config) → List Event × Except Err Unit
  | [] => ([], .ok ())
  | s :: ss =>
    match env.write_bindings s.ci s.config out_dir with
    | .error e => ([.WriteBindings s.crate_name out_dir], .error e)
    | .ok _ =>
      match writeAll env out_dir ss with
      | (t, r) => (.WriteBindings s.crate_name out_dir :: t, r)

/-- `generate_external_bindings` from `library_mode.rs`: compute the cdylib
name, check the library path with the generator, find the sources, create
the output directory (with parents, `fs::create_dir_all`), write every
source's bindings, and return the sources. -/
def generate_external_bindings {Config : Type} (env : Env Config)
    (library_path crate_root out_dir : Utf8Path) :
    List Event × Except Err (List (Source Config)) :=
  let cdylib_name := calc_cdylib_name library_path
  match env.check_library_path library_path cdylib_name with
  | .error e => ([.CheckLibraryPath library_path cdylib_name], .error e)
  | .ok _ =>
    match find_sources env crate_root library_path cdylib_name with
    | (t, .error e) => (.CheckLibraryPath library_path cdylib_name :: t, .error e)
    | (t, .ok sources) =>
      match env.create_dir_all out_dir with
      | .error e =>
        (.CheckLibraryPath library_path cdylib_name :: (t ++ [.CreateDirAll out_dir]),
          .error e)
      | .ok _ =>
        match writeAll env out_dir sources with
        | (t2, .error e) =>
          (.CheckLibraryPath library_path cdylib_name ::
            (t ++ [.CreateDirAll out_dir] ++ t2), .error e)
        | (t2, .ok _) =>
          (.CheckLibraryPath library_path cdylib_name ::
            (t ++ [.CreateDirAll out_dir] ++ t2), .ok sources)

/-- Modelled from the spec: a concrete `BindingsConfig` (the trait's
implementations live in the per-language backends, not under src/).  Each
field is `none` while still at its built-in default and `some` once set by
the loaded file or by an update step (§4.5, §9). -/
structure SpecConfig where
  cdylib_name : Option (List Char)
  module_name : Option String
deriving DecidableEq

/-- Modelled from the spec: `update_from_cdylib_name` "lets the config adopt
it for any field whose value is still at default" (§4.5 step 2). -/
def SpecConfig.update_from_cdylib_name (c : SpecConfig) (name : List Char) :
    SpecConfig :=
  match c.cdylib_name with
  | some _ => c
  | none => ⟨some name, c.module_name⟩

/-- Modelled from the spec: `update_from_ci` "derives additional defaults
purely from facts now available in the built ComponentInterface, again only
for still-default fields" (§4.5 step 3). -/
def SpecConfig.update_from_ci (c : SpecConfig) (ci : ComponentInterface) :
    SpecConfig :=
  match c.module_name with
  | some _ => c
  | none => ⟨c.cdylib_name, some ci.crate_name⟩

/-- A concrete library path used to evaluate the model on closed inputs. -/
def wPath : Utf8Path := ⟨some ("libuniffi.so".toList)⟩

/-- A concrete crate root used to evaluate the model on closed inputs. -/
def wRoot : Utf8Path := ⟨none⟩

/-- A concrete output directory used to evaluate the model on closed
inputs. -/
def wOut : Utf8Path := ⟨none⟩

/-- A fully succeeding environment over `SpecConfig`, whose artifact embeds
metadata for the namespaces `core` and `net` (with a repeated `core`
item). -/
def wEnvOk : Env SpecConfig :=
  { check_library_path := fun _ _ => .ok ()
    extract_from_library := fun _ => .ok [⟨"core", 0⟩, ⟨"net", 1⟩, ⟨"core", 2⟩]
    group_metadata_err := fun _ => none
    add_metadata := fun ci g => .ok ⟨ci.crate_name, g.items⟩
    load_initial_config := fun _ _ => .ok ⟨none, none⟩
    update_from_cdylib_name := SpecConfig.update_from_cdylib_name
    update_from_ci := SpecConfig.update_from_ci
    create_dir_all := fun _ => .ok ()
    write_bindings := fun _ _ _ => .ok () }

/-- `wEnvOk` with a failing usability check. -/
def wEnvCheckFail : Env SpecConfig :=
  { wEnvOk with check_library_path := fun _ _ => .error .unsupported }

/-- `wEnvOk` with failing introspection. -/
def wEnvExtractFail : Env SpecConfig :=
  { wEnvOk with extract_from_library := fun _ => .error .ioFailure }

/-- `wEnvOk` with a failing interface builder. -/
def wEnvAddFail : Env SpecConfig :=
  { wEnvOk with add_metadata := fun _ _ => .error .interfaceError }

/-- `wEnvOk` with an artifact holding no metadata at all. -/
def wEnvEmpty : Env SpecConfig :=
  { wEnvOk with extract_from_library := fun _ => .ok [] }

/-- `wEnvOk` with a loaded configuration file that explicitly sets both
fields. -/
def wEnvExplicit : Env SpecConfig :=
  { wEnvOk with
    load_initial_config := fun _ _ => .ok ⟨some ("explicit".toList), some "mymod"⟩ }

/-- The sources produced by the succeeding run of `wEnvOk`. -/
def wSources4 : List (Source SpecConfig) :=
  match (generate_external_bindings wEnvOk wPath wRoot wOut).2 with
  | .ok ss => ss
  | .error _ => []

/-- The sources produced by the succeeding run of `wEnvExplicit`. -/
def wSources2 : List (Source SpecConfig) :=
  match (generate_external_bindings wEnvExplicit wPath wRoot wOut).2 with
  | .ok ss => ss
  | .error _ => []

/-- The first source produced by the run of `wEnvExplicit`. -/
def wSrc2 : Source SpecConfig :=
  match wSources2 with
  | s :: _ => s
  | [] => ⟨"", ⟨"", []⟩, ⟨none, none⟩⟩

theorem dropPre_append (p s : List Char) : dropPre p (p ++ s) = some s := by
  induction p with
  | nil => rfl
  | cons c cs ih => simp [dropPre, ih]

theorem dropPre_eq_some {p s t : List Char} (h : dropPre p s = some t) :
    s = p ++ t := by
  induction p generalizing s with
  | nil =>
    simp [dropPre] at h
    simp [h]
  | cons c cs ih =>
    cases s with
    | nil => simp [dropPre] at h
    | cons x xs =>
      simp only [dropPre] at h
      by_cases hc : c = x
      · subst hc
        simp only [if_pos rfl] at h
        simp [ih h]
      · simp [if_neg hc] at h

theorem dropSuf_append (p s : List Char) : dropSuf p (s ++ p) = some s := by
  simp [dropSuf, List.reverse_append, dropPre_append]

theorem dropSuf_eq_some {p s t : List Char} (h : dropSuf p s = some t) :
    s = t ++ p := by
  simp only [dropSuf, Option.map_eq_some'] at h
  obtain ⟨u, hu, hrev⟩ := h
  have hs : s.reverse = p.reverse ++ u := dropPre_eq_some hu
  have := congrArg List.reverse hs
  simpa [← hrev] using this

theorem findStrip_ext {u e : List Char} (he : e ∈ cdylib_extentions) :
    findStrip cdylib_extentions (u ++ e) = some u := by
  simp only [cdylib_extentions, List.mem_cons, List.not_mem_nil, or_false] at he
  rcases he with he | he | he <;> subst he
  · simp [findStrip, cdylib_extentions, dropSuf_append]
  · have h1 : dropSuf ['.', 's', 'o'] (u ++ ['.', 'd', 'l', 'l']) = none := by
      simp only [dropSuf, List.reverse_append]
      rfl
    simp [findStrip, cdylib_extentions, h1, dropSuf_append]
  · have h1 : dropSuf ['.', 's', 'o'] (u ++ ['.', 'd', 'y', 'l', 'i', 'b']) = none := by
      simp only [dropSuf, List.reverse_append]
      rfl
    have h2 : dropSuf ['.', 'd', 'l', 'l'] (u ++ ['.', 'd', 'y', 'l', 'i', 'b']) = none := by
      simp only [dropSuf, List.reverse_append]
      rfl
    simp [findStrip, cdylib_extentions, h1, h2, dropSuf_append]

theorem dropPre_lib_append {s t : List Char} (hhead : t.head? = some '.')
    (h : dropPre libChars s = none) : dropPre libChars (s ++ t) = none := by
  match s with
  | [] =>
    cases t with
    | nil => simp at hhead
    | cons d ds =>
      simp only [List.head?_cons, Option.some.injEq] at hhead
      subst hhead
      rfl
  | [c] =>
    cases t with
    | nil => simp at hhead
    | cons d ds =>
      simp only [List.head?_cons, Option.some.injEq] at hhead
      subst hhead
      simp only [libChars, dropPre, List.cons_append, List.nil_append]
      split_ifs with h1 h2
      · exact absurd h2 (by decide)
      · rfl
      · rfl
  | [c1, c2] =>
    cases t with
    | nil => simp at hhead
    | cons d ds =>
      simp only [List.head?_cons, Option.some.injEq] at hhead
      subst hhead
      simp only [libChars, dropPre, List.cons_append, List.nil_append]
      split_ifs with h1 h2 h3
      · exact absurd h3 (by decide)
      · rfl
      · rfl
      · rfl
  | c1 :: c2 :: c3 :: rest =>
    simp only [libChars, dropPre, List.cons_append] at h ⊢
    split_ifs at h ⊢ <;> simp_all

theorem findStrip_none {es : List (List Char)} {f : List Char}
    (h : ∀ e ∈ es, dropSuf e f = none) : findStrip es f = none := by
  induction es with
  | nil => rfl
  | cons e es ih =>
    have he := h e (by simp)
    simp [findStrip, he, ih (fun x hx => h x (by simp [hx]))]

/-- C1: for every path whose filename has the form `<stem><ext>` with `<ext>`
one of `.so`, `.dll`, `.dylib`, `calc_cdylib_name` returns `some` of the stem
with a leading `lib` (if present) stripped, for every extension alike; for a
filename ending in none of the recognized extensions, and for a path without
a filename, it returns `none`. -/
theorem calc_cdylib_name_spec :
    (∀ s e, e ∈ cdylib_extentions →
      calc_cdylib_name ⟨some (s ++ e)⟩ = some (stripLib s))
    ∧ (∀ f, (∀ e ∈ cdylib_extentions, ¬ ∃ s, f = s ++ e) →
      calc_cdylib_name ⟨some f⟩ = none)
    ∧ calc_cdylib_name ⟨none⟩ = none := by
  refine ⟨?_, ?_, rfl⟩
  · intro s e he
    cases hps : dropPre libChars s with
    | some t =>
      have hs : s = libChars ++ t := dropPre_eq_some hps
      have hall : dropPre libChars (s ++ e) = some (t ++ e) := by
        rw [hs, List.append_assoc]
        exact dropPre_append libChars (t ++ e)
      simp only [calc_cdylib_name, hall, Option.getD_some]
      rw [findStrip_ext he]
      simp [stripLib, hps]
    | none =>
      have hhead : e.head? = some '.' := by
        simp only [cdylib_extentions, List.mem_cons, List.not_mem_nil,
          or_false] at he
        rcases he with he | he | he <;> subst he <;> rfl
      have hall : dropPre libChars (s ++ e) = none :=
        dropPre_lib_append hhead hps
      simp only [calc_cdylib_name, hall, Option.getD_none]
      rw [findStrip_ext he]
      simp [stripLib, hps]
  · intro f hf
    simp only [calc_cdylib_name]
    apply findStrip_none
    intro e he
    cases hds : dropSuf e ((dropPre libChars f).getD f) with
    | none => rfl
    | some t =>
      exfalso
      have hsplit := dropSuf_eq_some hds
      cases hp : dropPre libChars f with
      | none =>
        rw [hp, Option.getD_none] at hsplit
        exact hf e he ⟨t, hsplit⟩
      | some u =>
        rw [hp, Option.getD_some] at hsplit
        have hfu : f = libChars ++ u := dropPre_eq_some hp
        refine hf e he ⟨libChars ++ t, ?_⟩
        rw [hfu, hsplit, List.append_assoc]

/-- Witness for C1 at a concrete input: `libuniffi.so` resolves to `uniffi`. -/
theorem calc_cdylib_name_spec_witness :
    calc_cdylib_name ⟨some ("libuniffi.so".toList)⟩ = some ("uniffi".toList) := by
  have h := calc_cdylib_name_spec.1 ("libuniffi".toList) (".so".toList) (by decide)
  have e1 : "libuniffi".toList ++ ".so".toList = "libuniffi.so".toList := by decide
  have e2 : stripLib ("libuniffi".toList) = "uniffi".toList := by decide
  rw [e1, e2] at h
  exact h

/-- C8: a filename that is exactly the `lib` prefix followed by a recognized
extension, such as `lib.so`, yields `some ""` (the empty library name), not
`none`, because the prefix is stripped before the extension check. -/
theorem calc_cdylib_name_lib_so :
    calc_cdylib_name ⟨some ("lib.so".toList)⟩ = some [] := by decide

theorem processGroup_trace {C : Type} (env : Env C) (cr : Utf8Path)
    (cd : Option (List Char)) (g : MetadataGroup) :
    (processGroup env cr cd g).1 = [Event.AddMetadata g.ns.crate_name] ∨
    (processGroup env cr cd g).1 =
      [Event.AddMetadata g.ns.crate_name, Event.LoadConfig cr none] := by
  cases hA : env.add_metadata (ComponentInterface.new g.ns.crate_name) g with
  | error e => left; simp [processGroup, hA]
  | ok ci =>
    cases hL : env.load_initial_config cr none with
    | error e => right; simp [processGroup, hA, hL]
    | ok cfg => right; simp [processGroup, hA, hL]

theorem processGroup_events {C : Type} (env : Env C) (cr : Utf8Path)
    (cd : Option (List Char)) (g : MetadataGroup) :
    ∀ ev ∈ (processGroup env cr cd g).1,
      (∃ n, ev = Event.AddMetadata n) ∨ ev = Event.LoadConfig cr none := by
  intro ev hev
  rcases processGroup_trace env cr cd g with h | h <;> rw [h] at hev <;>
    simp only [List.mem_cons, List.not_mem_nil, or_false] at hev
  · exact Or.inl ⟨_, hev⟩
  · rcases hev with hev | hev
    · exact Or.inl ⟨_, hev⟩
    · exact Or.inr hev

theorem processGroups_events {C : Type} (env : Env C) (cr : Utf8Path)
    (cd : Option (List Char)) :
    ∀ gs, ∀ ev ∈ (processGroups env cr cd gs).1,
      (∃ n, ev = Event.AddMetadata n) ∨ ev = Event.LoadConfig cr none := by
  intro gs
  induction gs with
  | nil => intro ev hev; simp [processGroups] at hev
  | cons g gs ih =>
    intro ev hev
    rcases hg : processGroup env cr cd g with ⟨t, r⟩
    have hsub : ∀ e ∈ t, (∃ n, e = Event.AddMetadata n) ∨ e = Event.LoadConfig cr none :=
      fun e he => processGroup_events env cr cd g e (by rw [hg]; exact he)
    cases r with
    | error e =>
      simp only [processGroups, hg] at hev
      exact hsub ev hev
    | ok s =>
      rcases hr : processGroups env cr cd gs with ⟨t2, r2⟩
      cases r2 <;> simp only [processGroups, hg, hr] at hev <;>
        rcases List.mem_append.1 hev with h | h
      · exact hsub ev h
      · exact ih ev (by rw [hr]; exact h)
      · exact hsub ev h
      · exact ih ev (by rw [hr]; exact h)

theorem writeAll_events {C : Type} (env : Env C) (od : Utf8Path) :
    ∀ ss : List (Source C), ∀ ev ∈ (writeAll env od ss).1,
      ∃ n, ev = Event.WriteBindings n od := by
  intro ss
  induction ss with
  | nil => intro ev hev; simp [writeAll] at hev
  | cons s ss ih =>
    intro ev hev
    cases hw : env.write_bindings s.ci s.config od with
    | error e =>
      simp only [writeAll, hw] at hev
      simp only [List.mem_cons, List.not_mem_nil, or_false] at hev
      exact ⟨_, hev⟩
    | ok u =>
      rcases hr : writeAll env od ss with ⟨t, r⟩
      simp only [writeAll, hw, hr, List.mem_cons] at hev
      rcases hev with hev | hev
      · exact ⟨_, hev⟩
      · exact ih ev (by rw [hr]; exact hev)

theorem find_sources_events {C : Type} (env : Env C) (cr lp : Utf8Path)
    (cd : Option (List Char)) :
    ∀ ev ∈ (find_sources env cr lp cd).1,
      ev = Event.ExtractFromLibrary lp ∨ (∃ n, ev = Event.AddMetadata n) ∨
      ev = Event.LoadConfig cr none := by
  intro ev hev
  cases hx : env.extract_from_library lp with
  | error e =>
    simp only [find_sources, hx] at hev
    simp only [List.mem_cons, List.not_mem_nil, or_false] at hev
    exact Or.inl hev
  | ok items =>
    cases hgm : env.group_metadata_err items with
    | some e =>
      simp only [find_sources, hx, hgm] at hev
      simp only [List.mem_cons, List.not_mem_nil, or_false] at hev
      exact Or.inl hev
    | none =>
      rcases hp : processGroups env cr cd ((create_metadata_groups items).map Prod.snd)
        with ⟨t, r⟩
      simp only [find_sources, hx, hgm, hp, List.mem_cons] at hev
      rcases hev with hev | hev
      · exact Or.inl hev
      · exact Or.inr (processGroups_events env cr cd _ ev (by rw [hp]; exact hev))

theorem find_events_not_check {C : Type} (env : Env C) {cr lp : Utf8Path}
    {cd : Option (List Char)} {ev : Event}
    (hev : ev ∈ (find_sources env cr lp cd).1) : ev.isCheck = false := by
  rcases find_sources_events env cr lp cd ev hev with h | ⟨n, h⟩ | h <;> subst h <;> rfl

theorem writeAll_events_not_check {C : Type} (env : Env C) {od : Utf8Path}
    {ss : List (Source C)} {ev : Event}
    (hev : ev ∈ (writeAll env od ss).1) : ev.isCheck = false := by
  rcases writeAll_events env od ss ev hev with ⟨n, h⟩
  subst h
  rfl

theorem generate_events {C : Type} (env : Env C) (lp cr od : Utf8Path) :
    ∀ ev ∈ (generate_external_bindings env lp cr od).1,
      ev = Event.CheckLibraryPath lp (calc_cdylib_name lp) ∨
      ev = Event.ExtractFromLibrary lp ∨
      (∃ n, ev = Event.AddMetadata n) ∨
      ev = Event.LoadConfig cr none ∨
      ev = Event.CreateDirAll od ∨
      (∃ n, ev = Event.WriteBindings n od) := by
  intro ev hev
  cases hc : env.check_library_path lp (calc_cdylib_name lp) with
  | error e =>
    simp only [generate_external_bindings, hc, List.mem_cons,
      List.not_mem_nil, or_false] at hev
    exact Or.inl hev
  | ok u =>
    rcases hf : find_sources env cr lp (calc_cdylib_name lp) with ⟨t, r⟩
    have hft : ∀ x ∈ t,
        x = Event.ExtractFromLibrary lp ∨ (∃ n, x = Event.AddMetadata n) ∨
        x = Event.LoadConfig cr none :=
      fun x hx => find_sources_events env cr lp _ x (by rw [hf]; exact hx)
    cases r with
    | error e =>
      simp only [generate_external_bindings, hc, hf, List.mem_cons] at hev
      rcases hev with hev | hev
      · exact Or.inl hev
      · have h2 := hft ev hev
        tauto
    | ok sources =>
      have step : ∀ t2 : List Event, (∀ x ∈ t2, ∃ n, x = Event.WriteBindings n od) →
          ev ∈ Event.CheckLibraryPath lp (calc_cdylib_name lp) ::
            (t ++ [Event.CreateDirAll od] ++ t2) →
          ev = Event.CheckLibraryPath lp (calc_cdylib_name lp) ∨
          ev = Event.ExtractFromLibrary lp ∨
          (∃ n, ev = Event.AddMetadata n) ∨
          ev = Event.LoadConfig cr none ∨
          ev = Event.CreateDirAll od ∨
          (∃ n, ev = Event.WriteBindings n od) := by
        intro t2 ht2 hmem
        simp only [List.mem_cons, List.mem_append, List.not_mem_nil,
          or_false] at hmem
        rcases hmem with h | (h | h) | h
        · exact Or.inl h
        · have h2 := hft ev h
          tauto
        · tauto
        · have h2 := ht2 ev h
          tauto
      cases hd : env.create_dir_all od with
      | error e =>
        simp only [generate_external_bindings, hc, hf, hd] at hev
        exact step [] (by simp) (by simpa using hev)
      | ok u2 =>
        rcases hw : writeAll env od sources with ⟨t2, r2⟩
        have ht2 : ∀ x ∈ t2, ∃ n, x = Event.WriteBindings n od :=
          fun x hx => writeAll_events env od sources x (by rw [hw]; exact hx)
        cases r2 with
        | error e =>
          simp only [generate_external_bindings, hc, hf, hd, hw] at hev
          exact step t2 ht2 hev
        | ok u3 =>
          simp only [generate_external_bindings, hc, hf, hd, hw] at hev
          exact step t2 ht2 hev

/-- C7: in every invocation of `generate_external_bindings` the trace starts
with the single `check_library_path` call — it happens exactly once, before
any introspection and before any filesystem effect — and when that check
fails the run stops with its error, having performed nothing else. -/
theorem check_library_path_first {C : Type} (env : Env C) (lp cr od : Utf8Path) :
    (∃ rest, (generate_external_bindings env lp cr od).1 =
        Event.CheckLibraryPath lp (calc_cdylib_name lp) :: rest ∧
        ∀ ev ∈ rest, ev.isCheck = false)
    ∧ (∀ e, env.check_library_path lp (calc_cdylib_name lp) = .error e →
        generate_external_bindings env lp cr od =
          ([Event.CheckLibraryPath lp (calc_cdylib_name lp)], .error e)) := by
  constructor
  · cases hc : env.check_library_path lp (calc_cdylib_name lp) with
    | error e =>
      refine ⟨[], ?_, by simp⟩
      simp [generate_external_bindings, hc]
    | ok u =>
      rcases hf : find_sources env cr lp (calc_cdylib_name lp) with ⟨t, r⟩
      have hft : ∀ x ∈ t, Event.isCheck x = false :=
        fun x hx => find_events_not_check env (by rw [hf]; exact hx)
      cases r with
      | error e =>
        refine ⟨t, ?_, hft⟩
        simp [generate_external_bindings, hc, hf]
      | ok sources =>
        cases hd : env.create_dir_all od with
        | error e =>
          refine ⟨t ++ [Event.CreateDirAll od], ?_, ?_⟩
          · simp [generate_external_bindings, hc, hf, hd]
          · intro ev hev
            rcases List.mem_append.1 hev with h | h
            · exact hft ev h
            · simp only [List.mem_cons, List.not_mem_nil, or_false] at h
              subst h
              rfl
        | ok u2 =>
          rcases hw : writeAll env od sources with ⟨t2, r2⟩
          have ht2 : ∀ x ∈ t2, Event.isCheck x = false :=
            fun x hx => writeAll_events_not_check env (by rw [hw]; exact hx)
          have hrest : ∀ ev ∈ t ++ [Event.CreateDirAll od] ++ t2,
              Event.isCheck ev = false := by
            intro ev hev
            rcases List.mem_append.1 hev with h | h
            · rcases List.mem_append.1 h with h | h
              · exact hft ev h
              · simp only [List.mem_cons, List.not_mem_nil, or_false] at h
                subst h
                rfl
            · exact ht2 ev h
          cases r2 with
          | error e =>
            refine ⟨t ++ [Event.CreateDirAll od] ++ t2, ?_, hrest⟩
            simp [generate_external_bindings, hc, hf, hd, hw]
          | ok u3 =>
            refine ⟨t ++ [Event.CreateDirAll od] ++ t2, ?_, hrest⟩
            simp [generate_external_bindings, hc, hf, hd, hw]
  · intro e hc
    simp [generate_external_bindings, hc]

/-- C9: every `load_initial_config` call recorded in any run passes the
shared `crate_root` and no explicit config path, so each component's
configuration starts from the same base. -/
theorem load_initial_config_uniform {C : Type} (env : Env C)
    (lp cr od r : Utf8Path) (p : Option Utf8Path)
    (h : Event.LoadConfig r p ∈ (generate_external_bindings env lp cr od).1) :
    r = cr ∧ p = none := by
  rcases generate_events env lp cr od _ h with h1 | h1 | ⟨n, h1⟩ | h1 | h1 | ⟨n, h1⟩
  · exact absurd h1 (by simp)
  · exact absurd h1 (by simp)
  · exact absurd h1 (by simp)
  · injection h1 with hr hp
    exact ⟨hr, hp⟩
  · exact absurd h1 (by simp)
  · exact absurd h1 (by simp)

/-- C6: when introspection of the artifact fails, the run returns exactly
that error after only the usability check and the introspection attempt: no
output directory is created, no bindings are written, and no `Source` is
produced. -/
theorem extract_failure_no_output {C : Type} (env : Env C)
    (lp cr od : Utf8Path) (e : Err)
    (hc : env.check_library_path lp (calc_cdylib_name lp) = .ok ())
    (hx : env.extract_from_library lp = .error e) :
    generate_external_bindings env lp cr od =
      ([Event.CheckLibraryPath lp (calc_cdylib_name lp),
        Event.ExtractFromLibrary lp], .error e) := by
  have hfind : find_sources env cr lp (calc_cdylib_name lp) =
      ([Event.ExtractFromLibrary lp], .error e) := by
    simp [find_sources, hx]
  simp [generate_external_bindings, hc, hfind]

/-- C5: if building, configuring, or resolving any component fails (the
eager `collect` inside `find_sources` returns an error), the whole run
returns that error and `write_bindings` is never invoked for any component
— neither before nor after the failing one. -/
theorem component_failure_all_or_nothing {C : Type} (env : Env C)
    (lp cr od : Utf8Path) (items : List MetadataItem) (e : Err)
    (hc : env.check_library_path lp (calc_cdylib_name lp) = .ok ())
    (hx : env.extract_from_library lp = .ok items)
    (hg : env.group_metadata_err items = none)
    (hp : (processGroups env cr (calc_cdylib_name lp)
      ((create_metadata_groups items).map Prod.snd)).2 = .error e) :
    (generate_external_bindings env lp cr od).2 = .error e ∧
    ∀ ev ∈ (generate_external_bindings env lp cr od).1, ev.isWrite = false := by
  rcases hpp : processGroups env cr (calc_cdylib_name lp)
    ((create_metadata_groups items).map Prod.snd) with ⟨t, r⟩
  rw [hpp] at hp
  dsimp at hp
  subst hp
  have hfind : find_sources env cr lp (calc_cdylib_name lp) =
      (Event.ExtractFromLibrary lp :: t, .error e) := by
    simp [find_sources, hx, hg, hpp]
  have hgen : generate_external_bindings env lp cr od =
      (Event.CheckLibraryPath lp (calc_cdylib_name lp) ::
        Event.ExtractFromLibrary lp :: t, .error e) := by
    simp [generate_external_bindings, hc, hfind]
  refine ⟨by rw [hgen], ?_⟩
  intro ev hev
  rw [hgen] at hev
  simp only [List.mem_cons] at hev
  rcases hev with h | h | h
  · subst h
    rfl
  · subst h
    rfl
  · rcases processGroups_events env cr (calc_cdylib_name lp) _ ev
      (by rw [hpp]; exact h) with ⟨n, h1⟩ | h1 <;> subst h1 <;> rfl

/-- C10: when the artifact's metadata yields zero namespace groups, the run
still creates the output directory, performs zero `write_bindings` calls,
and returns `Ok` with an empty vector of sources. -/
theorem empty_metadata_run {C : Type} (env : Env C) (lp cr od : Utf8Path)
    (items : List MetadataItem)
    (hc : env.check_library_path lp (calc_cdylib_name lp) = .ok ())
    (hx : env.extract_from_library lp = .ok items)
    (hgrp : create_metadata_groups items = [])
    (hg : env.group_metadata_err items = none)
    (hd : env.create_dir_all od = .ok ()) :
    generate_external_bindings env lp cr od =
      ([Event.CheckLibraryPath lp (calc_cdylib_name lp),
        Event.ExtractFromLibrary lp, Event.CreateDirAll od], .ok []) := by
  have hfind : find_sources env cr lp (calc_cdylib_name lp) =
      ([Event.ExtractFromLibrary lp], .ok []) := by
    simp [find_sources, hx, hg, hgrp, processGroups]
  simp [generate_external_bindings, hc, hfind, hd, writeAll]

theorem addItem_keys (gs : List (String × MetadataGroup)) (i : MetadataItem) :
    (addItem gs i).map Prod.fst =
      if i.crate_name ∈ gs.map Prod.fst then gs.map Prod.fst
      else gs.map Prod.fst ++ [i.crate_name] := by
  unfold addItem
  split_ifs with h
  · rw [List.map_map]
    apply List.map_congr_left
    intro p hp
    by_cases hpe : p.1 = i.crate_name <;> simp [Function.comp, hpe]
  · simp

theorem addItem_inv {gs : List (String × MetadataGroup)} {i : MetadataItem}
    (h : ∀ p ∈ gs, p.2.ns.crate_name = p.1) :
    ∀ p ∈ addItem gs i, p.2.ns.crate_name = p.1 := by
  intro p hp
  unfold addItem at hp
  split_ifs at hp with hmem
  · rcases List.mem_map.1 hp with ⟨q, hq, hqp⟩
    by_cases hqe : q.1 = i.crate_name
    · rw [if_pos hqe] at hqp
      rw [← hqp]
      exact h q hq
    · rw [if_neg hqe] at hqp
      rw [← hqp]
      exact h q hq
  · rcases List.mem_append.1 hp with h1 | h1
    · exact h p h1
    · simp only [List.mem_cons, List.not_mem_nil, or_false] at h1
      subst h1
      rfl

theorem cg_keys_nodup : ∀ (items : List MetadataItem)
    (gs : List (String × MetadataGroup)), (gs.map Prod.fst).Nodup →
    ((items.foldl addItem gs).map Prod.fst).Nodup := by
  intro items
  induction items with
  | nil => intro gs h; exact h
  | cons i is ih =>
    intro gs h
    simp only [List.foldl_cons]
    apply ih
    rw [addItem_keys]
    split_ifs with hm
    · exact h
    · simp [List.nodup_append, h, hm]

theorem cg_keys_mem : ∀ (items : List MetadataItem)
    (gs : List (String × MetadataGroup)) (n : String),
    n ∈ (items.foldl addItem gs).map Prod.fst ↔
      n ∈ gs.map Prod.fst ∨ n ∈ items.map MetadataItem.crate_name := by
  intro items
  induction items with
  | nil => intro gs n; simp
  | cons i is ih =>
    intro gs n
    simp only [List.foldl_cons, List.map_cons, List.mem_cons]
    rw [ih, addItem_keys]
    split_ifs with hm
    · constructor
      · rintro (h | h)
        · exact Or.inl h
        · exact Or.inr (Or.inr h)
      · rintro (h | h | h)
        · exact Or.inl h
        · exact Or.inl (h ▸ hm)
        · exact Or.inr h
    · simp only [List.mem_append, List.mem_cons, List.not_mem_nil, or_false]
      tauto

theorem cg_inv : ∀ (items : List MetadataItem)
    (gs : List (String × MetadataGroup)),
    (∀ p ∈ gs, p.2.ns.crate_name = p.1) →
    ∀ p ∈ items.foldl addItem gs, p.2.ns.crate_name = p.1 := by
  intro items
  induction items with
  | nil => intro gs h; exact h
  | cons i is ih =>
    intro gs h
    simp only [List.foldl_cons]
    exact ih (addItem gs i) (addItem_inv h)

theorem cg_values_names (items : List MetadataItem) :
    ((create_metadata_groups items).map Prod.snd).map (fun g => g.ns.crate_name) =
      (create_metadata_groups items).map Prod.fst := by
  rw [List.map_map]
  apply List.map_congr_left
  intro p hp
  exact cg_inv items [] (by simp) p hp

theorem processGroup_ok_inv {C : Type} {env : Env C} {cr : Utf8Path}
    {cd : Option (List Char)} {g : MetadataGroup} {t : List Event}
    {s : Source C} (h : processGroup env cr cd g = (t, Except.ok s)) :
    s.crate_name = g.ns.crate_name ∧
    ∃ ci cfg0,
      env.add_metadata (ComponentInterface.new g.ns.crate_name) g = .ok ci ∧
      env.load_initial_config cr none = .ok cfg0 ∧
      s.ci = ci ∧
      s.config = env.update_from_ci (applyCdylibUpdate env cd cfg0) ci := by
  cases hA : env.add_metadata (ComponentInterface.new g.ns.crate_name) g with
  | error e => simp [processGroup, hA] at h
  | ok ci =>
    cases hL : env.load_initial_config cr none with
    | error e => simp [processGroup, hA, hL] at h
    | ok cfg =>
      simp only [processGroup, hA, hL, Prod.mk.injEq, Except.ok.injEq] at h
      obtain ⟨h1, h2⟩ := h
      subst h2
      exact ⟨rfl, ci, cfg, rfl, rfl, rfl, rfl⟩

theorem processGroups_ok_names {C : Type} (env : Env C) (cr : Utf8Path)
    (cd : Option (List Char)) :
    ∀ (gs : List MetadataGroup) (ss : List (Source C)) (t : List Event),
    processGroups env cr cd gs = (t, .ok ss) →
    ss.map (fun s => s.crate_name) = gs.map (fun g => g.ns.crate_name) := by
  intro gs
  induction gs with
  | nil =>
    intro ss t h
    simp only [processGroups, Prod.mk.injEq, Except.ok.injEq] at h
    rw [← h.2]
    rfl
  | cons g gs ih =>
    intro ss t h
    rcases hg : processGroup env cr cd g with ⟨t1, r1⟩
    cases r1 with
    | error e => simp [processGroups, hg] at h
    | ok s =>
      rcases hr : processGroups env cr cd gs with ⟨t2, r2⟩
      cases r2 with
      | error e => simp [processGroups, hg, hr] at h
      | ok ss2 =>
        simp only [processGroups, hg, hr, Prod.mk.injEq, Except.ok.injEq] at h
        rw [← h.2]
        simp only [List.map_cons]
        rw [(processGroup_ok_inv hg).1, ih ss2 t2 (by rw [hr])]

theorem processGroups_ok_mem {C : Type} (env : Env C) (cr : Utf8Path)
    (cd : Option (List Char)) :
    ∀ (gs : List MetadataGroup) (ss : List (Source C)) (t : List Event),
    processGroups env cr cd gs = (t, .ok ss) →
    ∀ s ∈ ss, ∃ g t1, processGroup env cr cd g = (t1, .ok s) := by
  intro gs
  induction gs with
  | nil =>
    intro ss t h
    simp only [processGroups, Prod.mk.injEq, Except.ok.injEq] at h
    rw [← h.2]
    intro s hs
    simp at hs
  | cons g gs ih =>
    intro ss t h
    rcases hg : processGroup env cr cd g with ⟨t1, r1⟩
    cases r1 with
    | error e => simp [processGroups, hg] at h
    | ok s1 =>
      rcases hr : processGroups env cr cd gs with ⟨t2, r2⟩
      cases r2 with
      | error e => simp [processGroups, hg, hr] at h
      | ok ss2 =>
        simp only [processGroups, hg, hr, Prod.mk.injEq, Except.ok.injEq] at h
        rw [← h.2]
        intro s hs
        rcases List.mem_cons.1 hs with hs | hs
        · exact ⟨g, t1, by rw [hg, hs]⟩
        · exact ih ss2 t2 (by rw [hr]) s hs

theorem find_sources_ok_inv {C : Type} {env : Env C} {cr lp : Utf8Path}
    {cd : Option (List Char)} {sources : List (Source C)}
    (h : (find_sources env cr lp cd).2 = .ok sources) :
    ∃ items, env.extract_from_library lp = .ok items ∧
      env.group_metadata_err items = none ∧
      (processGroups env cr cd
        ((create_metadata_groups items).map Prod.snd)).2 = .ok sources := by
  cases hx : env.extract_from_library lp with
  | error e => simp [find_sources, hx] at h
  | ok items =>
    cases hg : env.group_metadata_err items with
    | some e => simp [find_sources, hx, hg] at h
    | none =>
      rcases hp : processGroups env cr cd
        ((create_metadata_groups items).map Prod.snd) with ⟨t, r⟩
      simp only [find_sources, hx, hg, hp] at h
      exact ⟨items, rfl, hg, by rw [hp]; exact h⟩

theorem generate_ok_inv {C : Type} {env : Env C} {lp cr od : Utf8Path}
    {sources : List (Source C)}
    (h : (generate_external_bindings env lp cr od).2 = .ok sources) :
    (find_sources env cr lp (calc_cdylib_name lp)).2 = .ok sources := by
  cases hc : env.check_library_path lp (calc_cdylib_name lp) with
  | error e => simp [generate_external_bindings, hc] at h
  | ok u =>
    rcases hf : find_sources env cr lp (calc_cdylib_name lp) with ⟨t, r⟩
    cases r with
    | error e => simp [generate_external_bindings, hc, hf] at h
    | ok ss =>
      cases hd : env.create_dir_all od with
      | error e => simp [generate_external_bindings, hc, hf, hd] at h
      | ok u2 =>
        rcases hw : writeAll env od ss with ⟨t2, r2⟩
        cases r2 with
        | error e => simp [generate_external_bindings, hc, hf, hd, hw] at h
        | ok u3 =>
          simp only [generate_external_bindings, hc, hf, hd, hw] at h
          exact h

/-- C4: a successful run over an artifact whose introspection yields the
item list `items` returns sources whose crate names are pairwise distinct,
are exactly the namespaces occurring in the metadata (no loss, no
invention), and number exactly the distinct namespaces. -/
theorem sources_distinct_complete {C : Type} (env : Env C) (lp cr od : Utf8Path)
    (items : List MetadataItem) (sources : List (Source C))
    (hx : env.extract_from_library lp = .ok items)
    (h : (generate_external_bindings env lp cr od).2 = .ok sources) :
    (sources.map fun s => s.crate_name).Nodup ∧
    (∀ n, n ∈ sources.map (fun s => s.crate_name) ↔
      n ∈ items.map MetadataItem.crate_name) ∧
    sources.length = (items.map MetadataItem.crate_name).dedup.length := by
  obtain ⟨items2, hx2, hg2, hp2⟩ := find_sources_ok_inv (generate_ok_inv h)
  rw [hx] at hx2
  injection hx2 with hi
  subst hi
  rcases hpp : processGroups env cr (calc_cdylib_name lp)
    ((create_metadata_groups items).map Prod.snd) with ⟨t, r⟩
  rw [hpp] at hp2
  dsimp at hp2
  subst hp2
  have hnames : sources.map (fun s => s.crate_name) =
      ((create_metadata_groups items).map Prod.snd).map (fun g => g.ns.crate_name) :=
    processGroups_ok_names env cr (calc_cdylib_name lp) _ sources t hpp
  rw [cg_values_names] at hnames
  have hnodup : ((create_metadata_groups items).map Prod.fst).Nodup :=
    cg_keys_nodup items [] (by simp)
  have hmem : ∀ n, n ∈ (create_metadata_groups items).map Prod.fst ↔
      n ∈ items.map MetadataItem.crate_name := by
    intro n
    have h0 := cg_keys_mem items [] n
    simpa [create_metadata_groups] using h0
  refine ⟨?_, ?_, ?_⟩
  · rw [hnames]
    exact hnodup
  · intro n
    rw [hnames]
    exact hmem n
  · have hperm : ((create_metadata_groups items).map Prod.fst).Perm
        ((items.map MetadataItem.crate_name).dedup) := by
      rw [List.perm_ext_iff_of_nodup hnodup (List.nodup_dedup _)]
      intro a
      rw [List.mem_dedup]
      exact hmem a
    have h1 : sources.length =
        ((create_metadata_groups items).map Prod.fst).length := by
      have h2 := congrArg List.length hnames
      simpa using h2
    rw [h1, hperm.length_eq]

/-- Witness for C4: the succeeding two-namespace run returns two sources
with distinct names, as many as the distinct namespaces of the metadata. -/
theorem sources_distinct_complete_witness :
    (wSources4.map fun s => s.crate_name).Nodup ∧
    wSources4.length =
      (([⟨"core", 0⟩, ⟨"net", 1⟩, ⟨"core", 2⟩] : List MetadataItem).map
        MetadataItem.crate_name).dedup.length := by
  have h := sources_distinct_complete wEnvOk wPath wRoot wOut
    [⟨"core", 0⟩, ⟨"net", 1⟩, ⟨"core", 2⟩] wSources4 rfl rfl
  exact ⟨h.1, h.2.2⟩

/-- C2: over the spec-modelled `SpecConfig`, any field the loaded
configuration file set explicitly equals the final resolved value in every
returned source, and the two update steps change only fields still at their
built-in default. -/
theorem config_file_precedence (env : Env SpecConfig) (lp cr od : Utf8Path)
    (cfg0 : SpecConfig) (sources : List (Source SpecConfig))
    (hload : env.load_initial_config cr none = .ok cfg0)
    (hu1 : env.update_from_cdylib_name = SpecConfig.update_from_cdylib_name)
    (hu2 : env.update_from_ci = SpecConfig.update_from_ci)
    (h : (generate_external_bindings env lp cr od).2 = .ok sources) :
    ∀ s ∈ sources,
      (∀ v, cfg0.cdylib_name = some v → s.config.cdylib_name = some v) ∧
      (∀ m, cfg0.module_name = some m → s.config.module_name = some m) ∧
      (s.config.cdylib_name ≠ cfg0.cdylib_name → cfg0.cdylib_name = none) ∧
      (s.config.module_name ≠ cfg0.module_name → cfg0.module_name = none) := by
  intro s hs
  obtain ⟨items, hx2, hg2, hp2⟩ := find_sources_ok_inv (generate_ok_inv h)
  rcases hpp : processGroups env cr (calc_cdylib_name lp)
    ((create_metadata_groups items).map Prod.snd) with ⟨t, r⟩
  rw [hpp] at hp2
  dsimp at hp2
  subst hp2
  obtain ⟨g, t1, hpg⟩ := processGroups_ok_mem env cr (calc_cdylib_name lp)
    _ sources t hpp s hs
  obtain ⟨hname, ci, cfg, hA, hL, hci, hcfg⟩ := processGroup_ok_inv hpg
  rw [hload] at hL
  injection hL with hL
  subst hL
  simp only [applyCdylibUpdate, hu1, hu2] at hcfg
  rcases hcd : calc_cdylib_name lp with _ | nm <;>
    rcases hc0 : cfg0.cdylib_name with _ | v <;>
      rcases hm0 : cfg0.module_name with _ | m <;>
        simp only [hcd, SpecConfig.update_from_cdylib_name,
          SpecConfig.update_from_ci, hc0, hm0] at hcfg <;>
          refine ⟨fun v2 hv2 => ?_, fun m2 hm2 => ?_, fun hne => ?_, fun hne => ?_⟩ <;>
            simp_all

/-- Witness for C2: with a file that explicitly sets both fields, the final
configs of the run keep the explicit values even though the inferred cdylib
name `uniffi` and the crate name would suggest different ones. -/
theorem config_file_precedence_witness :
    wSrc2.config.cdylib_name = some ("explicit".toList) ∧
    wSrc2.config.module_name = some "mymod" := by
  have h := config_file_precedence wEnvExplicit wPath wRoot wOut
    ⟨some ("explicit".toList), some "mymod"⟩ wSources2 rfl rfl rfl rfl
    wSrc2 (by decide)
  exact ⟨h.1 _ rfl, h.2.1 _ rfl⟩

/-- Witness for C5: a run whose interface builder fails returns its error;
its full conclusion also rules out every write event. -/
theorem component_failure_witness :
    (generate_external_bindings wEnvAddFail wPath wRoot wOut).2 =
      Except.error Err.interfaceError :=
  (component_failure_all_or_nothing wEnvAddFail wPath wRoot wOut
    [⟨"core", 0⟩, ⟨"net", 1⟩, ⟨"core", 2⟩] Err.interfaceError rfl rfl rfl rfl).1

/-- Witness for C6: a failing introspection leaves only the check and the
extraction attempt in the trace and returns the I/O error. -/
theorem extract_failure_witness :
    generate_external_bindings wEnvExtractFail wPath wRoot wOut =
      ([Event.CheckLibraryPath wPath (calc_cdylib_name wPath),
        Event.ExtractFromLibrary wPath], Except.error Err.ioFailure) :=
  extract_failure_no_output wEnvExtractFail wPath wRoot wOut Err.ioFailure rfl rfl

/-- Witness for C7: a failing usability check terminates the run at once;
the trace is exactly the one check call. -/
theorem check_first_witness :
    generate_external_bindings wEnvCheckFail wPath wRoot wOut =
      ([Event.CheckLibraryPath wPath (calc_cdylib_name wPath)],
        Except.error Err.unsupported) :=
  (check_library_path_first wEnvCheckFail wPath wRoot wOut).2 Err.unsupported rfl

/-- Witness for C9: the `LoadConfig` event recorded in the succeeding run
carries the crate root and no explicit path. -/
theorem load_config_witness :
    wRoot = wRoot ∧ (none : Option Utf8Path) = none :=
  load_initial_config_uniform wEnvOk wPath wRoot wOut wRoot none (by decide)

/-- Witness for C10: an artifact with no metadata yields the directory
creation, zero writes, and `Ok` with the empty list. -/
theorem empty_metadata_witness :
    generate_external_bindings wEnvEmpty wPath wRoot wOut =
      ([Event.CheckLibraryPath wPath (calc_cdylib_name wPath),
        Event.ExtractFromLibrary wPath, Event.CreateDirAll wOut], Except.ok []) :=
  empty_metadata_run wEnvEmpty wPath wRoot wOut [] rfl rfl rfl rfl rfl
